import Mathlib

/-!
Shallow embedding of the backtesting core of the `trading_test` repository:
`src/upbit_bot/backtest.py` (class `EnhancedUpbitBacktest`) and
`src/upbit_bot/bitcoin_backtest.py` (class `BitcoinBacktester`).

Python floats are modelled as exact rationals (`ℚ`); Python `datetime`
values as a calendar-day index plus a time-of-day offset; Python dict
results such as `{'success': False, 'reason': r}` as an inductive type.
`np.sin` (used only to shape synthetic data) is passed in as an explicit
function argument, and the pseudo-random draws of the synthetic data
generator are passed in as an explicit list of draws: the generator is a
deterministic function of those inputs, mirroring the fact that the Python
code is a deterministic function of the global NumPy RNG stream.
-/

namespace TradingTest

/-- A `datetime` value: calendar day index (`.date()` in Python) plus a
time-of-day offset in hours within that day. -/
structure DT where
  day : ℤ
  hour : ℚ
deriving DecidableEq

/-- `BacktestConfig` from `backtest.py` (defaults as in the source). -/
structure BacktestConfig where
  initial_balance_usd : ℚ := 10000
  initial_balance_krw : ℚ := 0
  max_trade_amount : ℚ := 1000
  price_threshold : ℚ := 1/2
  buy_threshold : ℚ := 3/10
  sell_threshold : ℚ := 2
  stop_loss_threshold : ℚ := 2
  take_profit_threshold : ℚ := 1
  max_trades_per_day : ℕ := 10
  commission_rate : ℚ := 1/400
  slippage_rate : ℚ := 1/1000
deriving DecidableEq

/-- Trading signal of `ArbitrageStrategy.calculate_signal` (the strings
`'BUY'`, `'SELL'`, `'HOLD'` in the source). -/
inductive Signal where
  | BUY
  | SELL
  | HOLD
deriving DecidableEq

/-- `TradeRecord` from `trading_bot.py`; the `balance_after` dict
`{'USD': .., 'KRW': ..}` is flattened into two fields. -/
structure TradeRecord where
  timestamp : DT
  action : Signal
  amount_usd : ℚ
  usdt_krw_price : ℚ
  usd_krw_rate : ℚ
  difference_percentage : ℚ
  success : Bool
  reason : String
  profit_loss : ℚ
  balance_after_usd : ℚ
  balance_after_krw : ℚ
deriving DecidableEq

/-- The structured dict returned by `execute_backtest_trade`:
`{'success': False, 'reason': r}` or `{'success': True, 'costs': c}`. -/
inductive TradeResult where
  | rejected (reason : String)
  | executed (costs : ℚ)
deriving DecidableEq

/-- The mutable state of an `EnhancedUpbitBacktest` instance that the
simulation reads or writes. -/
structure BTState where
  balance_usd : ℚ
  balance_krw : ℚ
  trades : List TradeRecord
  daily_returns : List ℚ
  equity_curve : List ℚ
  daily_trade_count : ℕ
  last_trade_date : Option ℤ
deriving DecidableEq

/-- `EnhancedUpbitBacktest.reset_state`. -/
def reset_state (cfg : BacktestConfig) : BTState :=
  if cfg.initial_balance_krw > 0 then
    { balance_usd := cfg.initial_balance_usd
      balance_krw := cfg.initial_balance_krw
      trades := [], daily_returns := [], equity_curve := []
      daily_trade_count := 0, last_trade_date := none }
  else
    let half_balance := cfg.initial_balance_usd / 2
    { balance_usd := half_balance
      balance_krw := half_balance * 1300
      trades := [], daily_returns := [], equity_curve := []
      daily_trade_count := 0, last_trade_date := none }

/-- `EnhancedUpbitBacktest.calculate_commission_and_slippage`. -/
def calculate_commission_and_slippage (cfg : BacktestConfig) (amount price : ℚ) : ℚ :=
  let commission := amount * cfg.commission_rate
  let slippage := amount * price * cfg.slippage_rate
  commission + slippage

/-- Step (1) of `execute_backtest_trade`: reset the daily counter if the
calendar day changed. -/
def resetDailyIfNewDay (s : BTState) (date : DT) : BTState :=
  if s.last_trade_date ≠ some date.day then
    { s with daily_trade_count := 0, last_trade_date := some date.day }
  else s

/-- The remainder of `execute_backtest_trade` after the daily reset. -/
def executeOnDay (cfg : BacktestConfig) (s : BTState) (action : Signal)
    (amount price usd_krw_rate : ℚ) (date : DT) : TradeResult × BTState :=
  if s.daily_trade_count ≥ cfg.max_trades_per_day then
    (.rejected "Daily trade limit exceeded", s)
  else
    let costs := calculate_commission_and_slippage cfg amount price
    -- The success path shared by both branches: increment the daily counter
    -- and append the trade record.
    let finish := fun (s : BTState) =>
      let s := { s with daily_trade_count := s.daily_trade_count + 1 }
      let diff_percentage := (price - usd_krw_rate) / usd_krw_rate * 100
      let tr : TradeRecord :=
        { timestamp := date, action := action, amount_usd := amount
          usdt_krw_price := price, usd_krw_rate := usd_krw_rate
          difference_percentage := diff_percentage, success := true
          reason := "", profit_loss := 0
          balance_after_usd := s.balance_usd, balance_after_krw := s.balance_krw }
      (TradeResult.executed costs, { s with trades := s.trades ++ [tr] })
    if action = .BUY then
      if s.balance_usd ≥ amount + costs then
        finish { s with balance_usd := s.balance_usd - (amount + costs)
                        balance_krw := s.balance_krw + amount * price }
      else
        (.rejected "Insufficient USDT balance", s)
    else
      let krw_needed := amount * price
      if s.balance_krw ≥ krw_needed then
        finish { s with balance_krw := s.balance_krw - krw_needed
                        balance_usd := s.balance_usd + (amount - costs) }
      else
        (.rejected "Insufficient KRW balance", s)

/-- `EnhancedUpbitBacktest.execute_backtest_trade`.  The source compares the
action string against `'BUY'` and treats every other action as a SELL. -/
def execute_backtest_trade (cfg : BacktestConfig) (s : BTState) (action : Signal)
    (amount price usd_krw_rate : ℚ) (date : DT) : TradeResult × BTState :=
  executeOnDay cfg (resetDailyIfNewDay s date) action amount price usd_krw_rate date

/-- `ArbitrageStrategy.calculate_signal`. -/
def calculate_signal (cfg : BacktestConfig) (usd_krw_rate usdt_krw_price : ℚ) : Signal :=
  let kimchi_premium := (usdt_krw_price - usd_krw_rate) / usd_krw_rate * 100
  if kimchi_premium < cfg.buy_threshold then .BUY
  else if kimchi_premium > cfg.sell_threshold then .SELL
  else .HOLD

/-- The Sharpe value `mean(daily_returns) / std(daily_returns) * sqrt(252)`
represented exactly: either the literal `0.0` returned by the source's
guard branches, or the pair (mean, variance) with `variance ≠ 0`, which
determines the real value `mean / sqrt variance * sqrt 252`. -/
inductive SharpeVal where
  | zero
  | annualized (mean variance : ℚ)
deriving DecidableEq

/-- The float `profit_factor`: a finite rational or `float('inf')`. -/
inductive PF where
  | val (q : ℚ)
  | inf
deriving DecidableEq

/-- `np.mean`. -/
def listMean (l : List ℚ) : ℚ := l.sum / (l.length : ℚ)

/-- The square of `np.std` (population variance). -/
def listVariance (l : List ℚ) : ℚ :=
  ((l.map (fun x => (x - listMean l) ^ 2)).sum) / (l.length : ℚ)

/-- `EnhancedUpbitBacktest.calculate_sharpe_ratio` (the name is shortened
here); `np.std(l) == 0` iff `listVariance l = 0`. -/
def calculate_sharpe (daily_returns : List ℚ) : SharpeVal :=
  if daily_returns = [] then .zero
  else
    let mean_return := listMean daily_returns
    let var_return := listVariance daily_returns
    if var_return = 0 then .zero
    else .annualized mean_return var_return

/-- The body of the `calculate_max_drawdown` loop (accumulator: running
peak, running maximum drawdown). -/
def drawdownFoldStep (acc : ℚ × ℚ) (value : ℚ) : ℚ × ℚ :=
  let peak := if value > acc.1 then value else acc.1
  let drawdown := (peak - value) / peak * 100
  (peak, max acc.2 drawdown)

/-- `EnhancedUpbitBacktest.calculate_max_drawdown`. -/
def calculate_max_drawdown (equity_curve : List ℚ) : ℚ :=
  match equity_curve with
  | [] => 0
  | e0 :: _ => (equity_curve.foldl drawdownFoldStep (e0, 0)).2

/-- The loop body of `calculate_drawdown_history`: walks the equity curve
with an explicit index and running peak. -/
def drawdownHistAux (trades : List TradeRecord) (lastTs : DT) :
    ℕ → ℚ → List ℚ → List (DT × ℚ)
  | _, _, [] => []
  | i, peak, value :: rest =>
    let peak := if value > peak then value else peak
    let drawdown := if peak > 0 then (peak - value) / peak * 100 else 0
    let timestamp :=
      match trades[i]? with
      | some t => t.timestamp
      | none =>
        match trades.getLast? with
        | some t => { t.timestamp with day := t.timestamp.day + ((i : ℤ) - trades.length + 1) }
        | none => lastTs
    (timestamp, drawdown) :: drawdownHistAux trades lastTs (i + 1) peak rest

/-- `EnhancedUpbitBacktest.calculate_drawdown_history`. -/
def calculate_drawdown_history (s : BTState) : List (DT × ℚ) :=
  match s.equity_curve with
  | [] => []
  | e0 :: _ =>
    if s.trades = [] then []
    else drawdownHistAux s.trades ⟨0, 0⟩ 0 e0 s.equity_curve

/-- The metrics dict returned by `calculate_performance_metrics`. -/
structure Metrics where
  initial_balance : ℚ
  final_balance : ℚ
  total_return : ℚ
  return_percentage : ℚ
  max_drawdown : ℚ
  sharpe : SharpeVal
  win_rate : ℚ
  profit_factor : PF
  total_trades : ℕ
  winning_trades : ℕ
  losing_trades : ℕ
  average_win : ℚ
  average_loss : ℚ
deriving DecidableEq

/-- The `initial_value` computed at the top of
`calculate_performance_metrics` (KRW converted at the fixed rate 1300). -/
def initial_value (cfg : BacktestConfig) : ℚ :=
  if cfg.initial_balance_krw > 0 then
    cfg.initial_balance_usd + cfg.initial_balance_krw / 1300
  else cfg.initial_balance_usd

/-- The `final_value` computed in `calculate_performance_metrics`
(`self.balance_usd + self.balance_krw / 1300`, a "rough conversion" at the
fixed rate 1300). -/
def final_value (s : BTState) : ℚ := s.balance_usd + s.balance_krw / 1300

/-- `EnhancedUpbitBacktest.calculate_performance_metrics`. -/
def calculate_performance_metrics (cfg : BacktestConfig) (s : BTState) : Metrics :=
  let initial_value := initial_value cfg
  let final_value := final_value s
  let total_return := final_value - initial_value
  let return_percentage := if initial_value > 0 then total_return / initial_value * 100 else 0
  if s.trades = [] then
    { initial_balance := initial_value, final_balance := final_value
      total_return := total_return, return_percentage := return_percentage
      max_drawdown := 0, sharpe := .zero, win_rate := 0, profit_factor := .val 0
      total_trades := 0, winning_trades := 0, losing_trades := 0
      average_win := 0, average_loss := 0 }
  else
    let winning_trades := (s.trades.filter (fun t => t.profit_loss > 0)).length
    let losing_trades := (s.trades.filter (fun t => t.profit_loss < 0)).length
    let win_rate := (winning_trades : ℚ) / (s.trades.length : ℚ) * 100
    let total_wins := ((s.trades.filter (fun t => t.profit_loss > 0)).map
      (fun t => t.profit_loss)).sum
    let total_losses := ((s.trades.filter (fun t => t.profit_loss < 0)).map
      (fun t => |t.profit_loss|)).sum
    let avg_win := if winning_trades > 0 then total_wins / (winning_trades : ℚ) else 0
    let avg_loss := if losing_trades > 0 then total_losses / (losing_trades : ℚ) else 0
    let profit_factor := if total_losses > 0 then PF.val (total_wins / total_losses) else PF.inf
    { initial_balance := initial_value, final_balance := final_value
      total_return := total_return, return_percentage := return_percentage
      max_drawdown := calculate_max_drawdown s.equity_curve
      sharpe := calculate_sharpe s.daily_returns
      win_rate := win_rate, profit_factor := profit_factor
      total_trades := s.trades.length
      winning_trades := winning_trades, losing_trades := losing_trades
      average_win := avg_win, average_loss := avg_loss }

/-- One row of the historical-data frame consumed by `run_backtest`. -/
structure MarketRow where
  date : DT
  usd_krw_rate : ℚ
  usdt_krw_price : ℚ
  volume : ℚ
deriving DecidableEq

/-- One iteration of the `run_backtest` loop: signal, optional trade,
daily-performance bookkeeping.  The accumulator carries the instance state
and the loop-local `previous_balance`. -/
def backtestStep (cfg : BacktestConfig) (acc : BTState × ℚ) (row : MarketRow) : BTState × ℚ :=
  let s := acc.1
  let previous_balance := acc.2
  let signal := calculate_signal cfg row.usd_krw_rate row.usdt_krw_price
  let s :=
    if signal = .BUY ∨ signal = .SELL then
      let trade_amount := min cfg.max_trade_amount (s.balance_usd * (3/10))
      if trade_amount > 100 then
        (execute_backtest_trade cfg s signal trade_amount
          row.usdt_krw_price row.usd_krw_rate row.date).2
      else s
    else s
  let current_balance := s.balance_usd + s.balance_krw / row.usd_krw_rate
  let daily_return := (current_balance - previous_balance) / previous_balance * 100
  ({ s with daily_returns := s.daily_returns ++ [daily_return]
            equity_curve := s.equity_curve ++ [current_balance] },
   current_balance)

/-- `BacktestResult` from `backtest.py`. -/
structure BacktestResult where
  initial_balance : ℚ
  final_balance : ℚ
  total_return : ℚ
  return_percentage : ℚ
  max_drawdown : ℚ
  sharpe : SharpeVal
  win_rate : ℚ
  profit_factor : PF
  total_trades : ℕ
  winning_trades : ℕ
  losing_trades : ℕ
  average_win : ℚ
  average_loss : ℚ
  trades : List TradeRecord
  balance_history : List ℚ
  drawdown_history : List (DT × ℚ)
  daily_returns : List ℚ
  equity_curve : List ℚ
deriving DecidableEq

/-- The final state of the `run_backtest` loop on a given data frame. -/
def runLoop (cfg : BacktestConfig) (rows : List MarketRow) : BTState :=
  (rows.foldl (backtestStep cfg) (reset_state cfg, cfg.initial_balance_usd)).1

/-- `EnhancedUpbitBacktest.run_backtest` on an already-fetched data frame.
`prior` is the mutable instance state at call time; the method begins with
`self.reset_state()`, which overwrites every field read by the run, so the
prior state is discarded. -/
def run_backtest (cfg : BacktestConfig) (prior : BTState) (rows : List MarketRow) :
    BacktestResult :=
  let _ := prior
  let s := runLoop cfg rows
  let m := calculate_performance_metrics cfg s
  { initial_balance := m.initial_balance, final_balance := m.final_balance
    total_return := m.total_return, return_percentage := m.return_percentage
    max_drawdown := m.max_drawdown, sharpe := m.sharpe
    win_rate := m.win_rate, profit_factor := m.profit_factor
    total_trades := m.total_trades, winning_trades := m.winning_trades
    losing_trades := m.losing_trades
    average_win := m.average_win, average_loss := m.average_loss
    trades := s.trades, balance_history := s.equity_curve
    drawdown_history := calculate_drawdown_history s
    daily_returns := s.daily_returns, equity_curve := s.equity_curve }

/-- One day's pseudo-random draws in `_generate_synthetic_data`:
`n1 ~ normal(0, 0.005)`, `n2 ~ normal(0, 0.008)`, `n3 ~ normal(0, 0.003)`,
`u ~ uniform(1000000, 10000000)`. -/
structure NoiseDraw where
  n1 : ℚ
  n2 : ℚ
  n3 : ℚ
  u : ℚ
deriving DecidableEq

/-- `EnhancedUpbitBacktest._generate_synthetic_data`: a deterministic
function of the date range (here: the start day and the number of days,
encoded by `draws.length`), the RNG draw stream, and `sine i = sin (0.1 * i)`. -/
def generate_synthetic_data (startDay : ℤ) (draws : List NoiseDraw) (sine : ℕ → ℚ) :
    List MarketRow :=
  draws.enum.map fun p =>
    let i := p.1
    let d := p.2
    let usd_krw_rate := 1300 * (1 + d.n1)
    let usdt_krw_price := 1300 * (1 + d.n2)
    let trend := sine i * (2/1000)
    { date := ⟨startDay + i, 0⟩
      usd_krw_rate := usd_krw_rate * (1 + trend)
      usdt_krw_price := usdt_krw_price * (1 + trend + d.n3)
      volume := d.u }

/-! ## `bitcoin_backtest.py`: `BitcoinBacktester.simulate_trades`

Timestamps (`idx` in the source, a pandas timestamp) are modelled as
rational numbers measured in hours, so that the source's
`(idx - pos['entry_time']).total_seconds() / 3600` becomes plain
subtraction. -/

/-- `BitcoinBacktestConfig` (defaults as in the source). -/
structure BitcoinBacktestConfig where
  initial_balance_krw : ℚ := 13500000
  initial_balance_usdt : ℚ := 5000
  initial_btc : ℚ := 0
  entry_premium_threshold : ℚ := -2
  exit_profit_threshold : ℚ := 2
  max_position_size_btc : ℚ := 1/10
  leverage_multiplier : ℚ := 2
  upbit_commission : ℚ := 1/400
  binance_commission : ℚ := 1/1000
  binance_funding_rate : ℚ := 1/10000
  upbit_krw_fee : ℚ := 1/50
  slippage_rate : ℚ := 1/1000
  use_scaled_strategy : Bool := true
  position_portion : ℚ := 1/4
deriving DecidableEq

/-- An open-position dict.  `entry_level` is `some` only when the position
was opened by the scaled strategy (the original strategy builds the dict
without an `'entry_level'` key; `pos.get('entry_level', 0)` then reads 0,
modelled by `Option.getD`). -/
structure Position where
  entry_time : ℚ
  entry_premium : ℚ
  entry_level : Option ℚ
  size : ℚ
  upbit_entry_price : ℚ
  binance_entry_price : ℚ
  upbit_cost_krw : ℚ
  binance_margin_usdt : ℚ
  binance_proceeds_usdt : ℚ
  leverage : ℚ
deriving DecidableEq

/-- An `'ENTRY'` trade dict appended by `simulate_trades`. -/
structure EntryTrade where
  time : ℚ
  premium : ℚ
  entry_level : Option ℚ
  size : ℚ
  upbit_price : ℚ
  binance_price : ℚ
  leverage : ℚ
deriving DecidableEq

/-- An `'EXIT'` trade dict appended by `simulate_trades`. -/
structure ExitTrade where
  time : ℚ
  premium : ℚ
  exit_level : ℚ
  size : ℚ
  upbit_price : ℚ
  binance_price : ℚ
  upbit_pnl_krw : ℚ
  binance_pnl_usdt : ℚ
  funding_income_usdt : ℚ
  total_pnl_krw : ℚ
deriving DecidableEq

/-- A trade dict: tagged by its `'type'` field. -/
inductive BTrade where
  | entry (t : EntryTrade)
  | exit (t : ExitTrade)
deriving DecidableEq

/-- One `balance_history` record. -/
structure BalanceSnapshot where
  time : ℚ
  balance_krw : ℚ
  balance_usdt : ℚ
  balance_btc : ℚ
  total_value_krw : ℚ
  premium : ℚ
deriving DecidableEq

/-- One row of the merged data frame walked by `simulate_trades`. -/
structure BRow where
  time : ℚ
  kimchi_premium : ℚ
  upbit_close : ℚ
  binance_close : ℚ
  usd_krw_rate : ℚ
deriving DecidableEq

/-- The loop state of `simulate_trades` (balances, trades, open positions,
used levels, balance history).  Python sets are modelled as lists used only
through membership. -/
structure SimState where
  balance_krw : ℚ
  balance_usdt : ℚ
  balance_btc : ℚ
  trades : List BTrade
  open_positions : List Position
  used_entry_levels : List ℚ
  used_exit_levels : List ℚ
  balance_history : List BalanceSnapshot
deriving DecidableEq

/-- The scaled-strategy entry ladder `[0.0, -0.5, ..., -4.0]`. -/
def scaledEntryLevels : List ℚ := [0, -1/2, -1, -3/2, -2, -5/2, -3, -7/2, -4]

/-- The scaled-strategy exit ladder `[0.5, 1.0, ..., 4.0]`. -/
def scaledExitLevels : List ℚ := [1/2, 1, 3/2, 2, 5/2, 3, 7/2, 4]

/-- `BitcoinBacktester.calculate_funding_income` (the `position_size`
argument is unused in the source as well). -/
def calculate_funding_income (cfg : BitcoinBacktestConfig)
    (position_size position_value_usdt hours_held : ℚ) : ℚ :=
  let _ := position_size
  let funding_periods := hours_held / 8
  position_value_usdt * cfg.binance_funding_rate * funding_periods

/-- The scaled entry `for entry_level in entry_levels` loop: the first
level whose guards all pass opens a position and breaks out; a level that
passes the premium/used/count guard but fails the sizing or balance check
falls through to the next level. -/
def scaledEntryLoop (cfg : BitcoinBacktestConfig) (row : BRow) (s : SimState) :
    List ℚ → SimState
  | [] => s
  | entry_level :: rest =>
    if row.kimchi_premium < entry_level ∧ entry_level ∉ s.used_entry_levels ∧
        s.open_positions.length < scaledEntryLevels.length then
      let initial_total_krw := cfg.initial_balance_krw + cfg.initial_balance_usdt * 1300
      let available_krw := initial_total_krw * cfg.position_portion
      let available_usdt := cfg.initial_balance_usdt * cfg.position_portion
      let max_btc_by_krw := available_krw / row.upbit_close * (95/100)
      let max_btc_by_usdt :=
        available_usdt * cfg.leverage_multiplier / row.binance_close * (95/100)
      let position_size :=
        min cfg.max_position_size_btc (min max_btc_by_krw max_btc_by_usdt)
      if position_size ≥ 1/1000 then
        let upbit_cost := position_size * row.upbit_close * (1 + cfg.upbit_commission)
        let krw_deposit_income := upbit_cost * cfg.upbit_krw_fee
        let total_upbit_cost := upbit_cost - krw_deposit_income
        let binance_margin_required :=
          position_size * row.binance_close / cfg.leverage_multiplier
        let binance_proceeds :=
          position_size * row.binance_close * (1 - cfg.binance_commission)
        if s.balance_krw ≥ total_upbit_cost ∧ s.balance_usdt ≥ binance_margin_required then
          let position : Position :=
            { entry_time := row.time, entry_premium := row.kimchi_premium
              entry_level := some entry_level, size := position_size
              upbit_entry_price := row.upbit_close, binance_entry_price := row.binance_close
              upbit_cost_krw := total_upbit_cost
              binance_margin_usdt := binance_margin_required
              binance_proceeds_usdt := binance_proceeds
              leverage := cfg.leverage_multiplier }
          { s with balance_krw := s.balance_krw - total_upbit_cost
                   balance_btc := s.balance_btc + position_size
                   balance_usdt := s.balance_usdt - binance_margin_required
                   open_positions := s.open_positions ++ [position]
                   used_entry_levels := entry_level :: s.used_entry_levels
                   trades := s.trades ++ [.entry
                     { time := row.time, premium := row.kimchi_premium
                       entry_level := some entry_level, size := position_size
                       upbit_price := row.upbit_close, binance_price := row.binance_close
                       leverage := cfg.leverage_multiplier }] }
        else scaledEntryLoop cfg row s rest
      else scaledEntryLoop cfg row s rest
    else scaledEntryLoop cfg row s rest

/-- The original (non-scaled) entry branch. -/
def originalEntry (cfg : BitcoinBacktestConfig) (row : BRow) (s : SimState) : SimState :=
  if row.kimchi_premium < cfg.entry_premium_threshold ∧ s.open_positions.length < 3 then
    let max_btc_by_usdt :=
      s.balance_usdt * cfg.leverage_multiplier / row.binance_close * (95/100)
    let max_btc_by_krw := s.balance_krw / row.upbit_close * (95/100)
    let position_size :=
      min cfg.max_position_size_btc (min max_btc_by_usdt max_btc_by_krw)
    if position_size ≥ 1/1000 then
      let upbit_cost := position_size * row.upbit_close * (1 + cfg.upbit_commission)
      let binance_margin_required :=
        position_size * row.binance_close / cfg.leverage_multiplier
      let binance_proceeds :=
        position_size * row.binance_close * (1 - cfg.binance_commission)
      if s.balance_krw ≥ upbit_cost ∧ s.balance_usdt ≥ binance_margin_required then
        let position : Position :=
          { entry_time := row.time, entry_premium := row.kimchi_premium
            entry_level := none, size := position_size
            upbit_entry_price := row.upbit_close, binance_entry_price := row.binance_close
            upbit_cost_krw := upbit_cost
            binance_margin_usdt := binance_margin_required
            binance_proceeds_usdt := binance_proceeds
            leverage := cfg.leverage_multiplier }
        { s with balance_krw := s.balance_krw - upbit_cost
                 balance_btc := s.balance_btc + position_size
                 balance_usdt := s.balance_usdt - binance_margin_required
                 open_positions := s.open_positions ++ [position]
                 trades := s.trades ++ [.entry
                   { time := row.time, premium := row.kimchi_premium
                     entry_level := none, size := position_size
                     upbit_price := row.upbit_close, binance_price := row.binance_close
                     leverage := cfg.leverage_multiplier }] }
      else s
    else s
  else s

/-- The per-position arbitrage profit percentage used by the exit logic. -/
def totalProfitPercentage (row : BRow) (pos : Position) : ℚ :=
  let upbit_profit_pct :=
    (row.upbit_close - pos.upbit_entry_price) / pos.upbit_entry_price * 100
  let binance_profit_pct :=
    (pos.binance_entry_price - row.binance_close) / pos.binance_entry_price * 100
  (upbit_profit_pct + binance_profit_pct) / 2

/-- The scaled `for exit_level in exit_levels` inner loop: the first exit
level such that the profit exceeds it, it is unused, and the position's
`entry_level` (defaulting to 0) is at most `-0.5`. -/
def scaledFindExit (row : BRow) (pos : Position) (used : List ℚ) :
    List ℚ → Option ℚ
  | [] => none
  | exit_level :: rest =>
    if totalProfitPercentage row pos > exit_level ∧ exit_level ∉ used ∧
        pos.entry_level.getD 0 ≤ -1/2 then
      some exit_level
    else scaledFindExit row pos used rest

/-- The `for i, pos in enumerate(open_positions)` collection loop: builds
`positions_to_close` (index paired with the exit level that fired) and the
updated `used_exit_levels`. -/
def collectCloses (cfg : BitcoinBacktestConfig) (row : BRow) :
    List Position → ℕ → List ℚ → List (ℕ × ℚ) × List ℚ
  | [], _, used => ([], used)
  | pos :: rest, i, used =>
    if cfg.use_scaled_strategy then
      match scaledFindExit row pos used scaledExitLevels with
      | some exit_level =>
        let r := collectCloses cfg row rest (i + 1) (exit_level :: used)
        ((i, exit_level) :: r.1, r.2)
      | none => collectCloses cfg row rest (i + 1) used
    else
      if totalProfitPercentage row pos > cfg.exit_profit_threshold then
        let r := collectCloses cfg row rest (i + 1) used
        ((i, cfg.exit_profit_threshold) :: r.1, r.2)
      else collectCloses cfg row rest (i + 1) used

/-- Closing one collected position: `open_positions.pop(i)` plus the exit
bookkeeping.  An out-of-range index (which the source never produces) is a
no-op. -/
def closePosition (cfg : BitcoinBacktestConfig) (row : BRow) (s : SimState)
    (p : ℕ × ℚ) : SimState :=
  match s.open_positions[p.1]? with
  | none => s
  | some pos =>
    let position_duration := row.time - pos.entry_time
    let position_value_usdt := pos.size * pos.binance_entry_price
    let funding_income :=
      calculate_funding_income cfg pos.size position_value_usdt position_duration
    let upbit_proceeds := pos.size * row.upbit_close * (1 - cfg.upbit_commission)
    let krw_withdrawal_income := upbit_proceeds * cfg.upbit_krw_fee
    let net_upbit_proceeds := upbit_proceeds + krw_withdrawal_income
    let binance_cost := pos.size * row.binance_close * (1 + cfg.binance_commission)
    let upbit_pnl_krw := net_upbit_proceeds - pos.upbit_cost_krw
    let binance_pnl_usdt := pos.binance_proceeds_usdt - binance_cost + funding_income
    { s with open_positions := s.open_positions.eraseIdx p.1
             balance_krw := s.balance_krw + net_upbit_proceeds
             balance_btc := s.balance_btc - pos.size
             balance_usdt := s.balance_usdt + pos.binance_margin_usdt
             trades := s.trades ++ [.exit
               { time := row.time, premium := row.kimchi_premium
                 exit_level := p.2, size := pos.size
                 upbit_price := row.upbit_close, binance_price := row.binance_close
                 upbit_pnl_krw := upbit_pnl_krw, binance_pnl_usdt := binance_pnl_usdt
                 funding_income_usdt := funding_income
                 total_pnl_krw := upbit_pnl_krw + binance_pnl_usdt * row.usd_krw_rate }] }

/-- One iteration of the `simulate_trades` row loop: entry phase, exit
collection, closing in reversed collection order, balance snapshot. -/
def simStep (cfg : BitcoinBacktestConfig) (s : SimState) (row : BRow) : SimState :=
  let s :=
    if cfg.use_scaled_strategy then scaledEntryLoop cfg row s scaledEntryLevels
    else originalEntry cfg row s
  let collected := collectCloses cfg row s.open_positions 0 s.used_exit_levels
  let s := { s with used_exit_levels := collected.2 }
  let s := collected.1.reverse.foldl (closePosition cfg row) s
  let total_value_krw := s.balance_krw + s.balance_usdt * row.usd_krw_rate +
    s.balance_btc * row.upbit_close
  { s with balance_history := s.balance_history ++
      [{ time := row.time, balance_krw := s.balance_krw
         balance_usdt := s.balance_usdt, balance_btc := s.balance_btc
         total_value_krw := total_value_krw, premium := row.kimchi_premium }] }

/-- The initial loop state of `simulate_trades`. -/
def initSimState (cfg : BitcoinBacktestConfig) : SimState :=
  { balance_krw := cfg.initial_balance_krw, balance_usdt := cfg.initial_balance_usdt
    balance_btc := cfg.initial_btc, trades := [], open_positions := []
    used_entry_levels := [], used_exit_levels := [], balance_history := [] }

/-- The state of `simulate_trades` after consuming a list of data rows. -/
def simulateStates (cfg : BitcoinBacktestConfig) (rows : List BRow) : SimState :=
  rows.foldl (simStep cfg) (initSimState cfg)

/-! ## Auxiliary definitions used by the verification statements -/

/-- One direct call to `execute_backtest_trade` (its argument tuple). -/
structure TradeAttempt where
  action : Signal
  amount : ℚ
  price : ℚ
  usd_krw_rate : ℚ
  date : DT
deriving DecidableEq

/-- Run a sequence of `execute_backtest_trade` calls, collecting the
returned result dicts and threading the instance state. -/
def runAttempts (cfg : BacktestConfig) (s : BTState) :
    List TradeAttempt → List TradeResult × BTState
  | [] => ([], s)
  | a :: rest =>
    let r := execute_backtest_trade cfg s a.action a.amount a.price a.usd_krw_rate a.date
    let rr := runAttempts cfg r.2 rest
    (r.1 :: rr.1, rr.2)

/-- Number of successful (`{'success': True}`) results in a list. -/
def countExecuted (rs : List TradeResult) : ℕ :=
  (rs.filter fun r => match r with | .executed _ => true | .rejected _ => false).length

/-- A configuration with `max_trades_per_day = 1` (all other fields default). -/
def cfgDailyOne : BacktestConfig := { max_trades_per_day := 1 }

/-- A signal-driven BUY attempt at hour `h` of calendar day 0. -/
def buyAttemptAt (h : ℚ) : TradeAttempt :=
  { action := .BUY, amount := 100, price := 1300, usd_krw_rate := 1300, date := ⟨0, h⟩ }

/-- Five trade attempts carrying the same calendar date (day 0). -/
def fiveAttempts : List TradeAttempt :=
  [buyAttemptAt 0, buyAttemptAt 1, buyAttemptAt 2, buyAttemptAt 3, buyAttemptAt 4]

/-- A market observation whose kimchi premium (1%) lies strictly between
the default buy threshold (0.3) and sell threshold (2.0), so the signal is
HOLD, while its USD/KRW rate (1000) differs from the fixed conversion rate
1300 used by `calculate_performance_metrics`. -/
def holdRow : MarketRow :=
  { date := ⟨0, 0⟩, usd_krw_rate := 1000, usdt_krw_price := 1010, volume := 0 }

/-- A recorded trade with `success = True` and `profit_loss = 0.0`, exactly
as `execute_backtest_trade` records them. -/
def zeroPLTrade : TradeRecord :=
  { timestamp := ⟨0, 0⟩, action := .BUY, amount_usd := 100
    usdt_krw_price := 1300, usd_krw_rate := 1300, difference_percentage := 0
    success := true, reason := "", profit_loss := 0
    balance_after_usd := 5000, balance_after_krw := 6500000 }

/-- An instance state holding exactly one recorded trade with zero
profit_loss. -/
def stateOneZeroPLTrade : BTState :=
  { balance_usd := 5000, balance_krw := 6500000, trades := [zeroPLTrade]
    daily_returns := [], equity_curve := [], daily_trade_count := 1
    last_trade_date := some 0 }

/-- An instance state holding exactly one losing trade (`profit_loss = -1`). -/
def stateOneLossTrade : BTState :=
  { balance_usd := 5000, balance_krw := 6500000
    trades := [{ zeroPLTrade with profit_loss := -1 }]
    daily_returns := [], equity_curve := [], daily_trade_count := 1
    last_trade_date := some 0 }

/-- Spec formula (§4.6): `peak_to_t = max(equity_0..t)`. -/
def peakTo : List ℚ → ℕ → ℚ
  | [], _ => 0
  | e0 :: rest, t => (rest.take t).foldl max e0

/-- Spec formula (§4.6): the drawdown at step `t`,
`(peak_to_t - equity_t) / peak_to_t * 100`. -/
def specDrawdown (l : List ℚ) (t : ℕ) : ℚ :=
  (peakTo l t - l.getD t 0) / peakTo l t * 100

/-- All spec drawdown values of an equity curve, indexed by `t`. -/
def specDrawdownList (l : List ℚ) : List ℚ :=
  (List.range l.length).map (specDrawdown l)

/-- Running peak of the source's drawdown fold, started from `p`. -/
def runPeak (p : ℚ) (l : List ℚ) (t : ℕ) : ℚ := (l.take (t + 1)).foldl max p

/-- Drawdown at step `t` relative to the running peak started from `p`. -/
def ddFrom (p : ℚ) (l : List ℚ) (t : ℕ) : ℚ :=
  (runPeak p l t - l.getD t 0) / runPeak p l t * 100

/-- Recursive form of the source's drawdown fold (accumulator:
running peak, running maximum drawdown). -/
def mddAux : ℚ → ℚ → List ℚ → ℚ
  | _, m, [] => m
  | peak, m, v :: rest =>
    let peak' := if v > peak then v else peak
    mddAux peak' (max m ((peak' - v) / peak' * 100)) rest

/-- The `entry_level` recorded by an ENTRY trade (none for EXIT trades and
for ENTRY trades of the non-scaled strategy, whose dict has no
`'entry_level'` key). -/
def entryLevelOf : BTrade → Option ℚ
  | .entry e => e.entry_level
  | .exit _ => none

/-- The open positions that were entered at the scaled level `0.0`. -/
def levelZeroPositions (l : List Position) : List Position :=
  l.filter (fun p => decide (p.entry_level = some 0))

/-- A trivial market row (premium 0, both prices 1, rate 1). -/
def trivialRow : BRow := ⟨0, 0, 1, 1, 1⟩

/-- The C4 loop invariant of `simulate_trades` in scaled mode: never more
open positions than entry levels, the entry levels recorded by ENTRY trades
are pairwise distinct, and every recorded entry level is in
`used_entry_levels`. -/
def C4Inv (s : SimState) : Prop :=
  s.open_positions.length ≤ scaledEntryLevels.length ∧
  (s.trades.filterMap entryLevelOf).Nodup ∧
  ∀ l ∈ s.trades.filterMap entryLevelOf, l ∈ s.used_entry_levels

/-! ## Helper lemmas about `execute_backtest_trade` -/

theorem resetDaily_balances (s : BTState) (date : DT) :
    (resetDailyIfNewDay s date).balance_usd = s.balance_usd ∧
    (resetDailyIfNewDay s date).balance_krw = s.balance_krw ∧
    (resetDailyIfNewDay s date).trades = s.trades := by
  unfold resetDailyIfNewDay
  split <;> exact ⟨rfl, rfl, rfl⟩

theorem resetDaily_last (s : BTState) (date : DT) :
    (resetDailyIfNewDay s date).last_trade_date = some date.day := by
  unfold resetDailyIfNewDay
  split
  · rfl
  · next h => simpa using h

theorem resetDaily_of_eq {s : BTState} {date : DT}
    (h : s.last_trade_date = some date.day) : resetDailyIfNewDay s date = s := by
  unfold resetDailyIfNewDay
  rw [if_neg]
  simp [h]

theorem resetDaily_of_ne {s : BTState} {date : DT}
    (h : s.last_trade_date ≠ some date.day) :
    resetDailyIfNewDay s date =
      { s with daily_trade_count := 0, last_trade_date := some date.day } := by
  unfold resetDailyIfNewDay
  rw [if_pos h]

theorem executeOnDay_rejected (cfg : BacktestConfig) (s : BTState) (action : Signal)
    (amount price usd_krw_rate : ℚ) (date : DT) (reason : String) (s' : BTState)
    (h : executeOnDay cfg s action amount price usd_krw_rate date
          = (.rejected reason, s')) :
    s' = s ∧
    (reason = "Daily trade limit exceeded" ∨ reason = "Insufficient USDT balance" ∨
     reason = "Insufficient KRW balance") := by
  simp only [executeOnDay] at h
  split at h
  · simp only [Prod.mk.injEq, TradeResult.rejected.injEq] at h
    exact ⟨h.2.symm, Or.inl h.1.symm⟩
  · split at h
    · split at h
      · exact absurd h (by simp)
      · simp only [Prod.mk.injEq, TradeResult.rejected.injEq] at h
        exact ⟨h.2.symm, Or.inr (Or.inl h.1.symm)⟩
    · split at h
      · exact absurd h (by simp)
      · simp only [Prod.mk.injEq, TradeResult.rejected.injEq] at h
        exact ⟨h.2.symm, Or.inr (Or.inr h.1.symm)⟩

theorem executeOnDay_executed (cfg : BacktestConfig) (s : BTState) (action : Signal)
    (amount price usd_krw_rate : ℚ) (date : DT) (costs : ℚ) (s' : BTState)
    (h : executeOnDay cfg s action amount price usd_krw_rate date
          = (.executed costs, s')) :
    costs = calculate_commission_and_slippage cfg amount price ∧
    s.daily_trade_count < cfg.max_trades_per_day ∧
    s'.daily_trade_count = s.daily_trade_count + 1 ∧
    s'.last_trade_date = s.last_trade_date ∧
    (∃ tr : TradeRecord, tr.success = true ∧ tr.profit_loss = 0 ∧
      s'.trades = s.trades ++ [tr]) ∧
    (action = .BUY →
      s.balance_usd ≥ amount + costs ∧
      s'.balance_usd = s.balance_usd - (amount + costs) ∧
      s'.balance_krw = s.balance_krw + amount * price) ∧
    (action ≠ .BUY →
      s.balance_krw ≥ amount * price ∧
      s'.balance_krw = s.balance_krw - amount * price ∧
      s'.balance_usd = s.balance_usd + (amount - costs)) := by
  simp only [executeOnDay] at h
  split at h
  · exact absurd h (by simp)
  · next hlim =>
    split at h
    · next hbuy =>
      split at h
      · next hbal =>
        simp only [Prod.mk.injEq, TradeResult.executed.injEq] at h
        obtain ⟨hc, hs⟩ := h
        subst hc
        subst hs
        refine ⟨rfl, by omega, rfl, rfl, ⟨_, rfl, rfl, rfl⟩, ?_, ?_⟩
        · intro _
          exact ⟨hbal, rfl, rfl⟩
        · intro hn
          exact absurd hbuy hn
      · exact absurd h (by simp)
    · next hbuy =>
      split at h
      · next hbal =>
        simp only [Prod.mk.injEq, TradeResult.executed.injEq] at h
        obtain ⟨hc, hs⟩ := h
        subst hc
        subst hs
        refine ⟨rfl, by omega, rfl, rfl, ⟨_, rfl, rfl, rfl⟩, ?_, ?_⟩
        · intro hb
          exact absurd hb hbuy
        · intro _
          exact ⟨hbal, rfl, rfl⟩
      · exact absurd h (by simp)

theorem executeOnDay_limit (cfg : BacktestConfig) (s : BTState) (action : Signal)
    (amount price usd_krw_rate : ℚ) (date : DT)
    (h : cfg.max_trades_per_day ≤ s.daily_trade_count) :
    executeOnDay cfg s action amount price usd_krw_rate date
      = (.rejected "Daily trade limit exceeded", s) := by
  simp only [executeOnDay]
  rw [if_pos h]

/-! ## Claims C1, C5, C9, C10 -/

/-- C1: for every successfully executed trade (BUY or SELL) of
`execute_backtest_trade`, the sum of the two balances converted to a common
reference currency (KRW converted at the executed USDT/KRW price) directly
after the trade equals the sum directly before it, minus exactly the
`commission + slippage` returned by `calculate_commission_and_slippage
(amount, price)`. -/
theorem C1_balance_conservation (cfg : BacktestConfig) (s : BTState) (action : Signal)
    (amount price usd_krw_rate : ℚ) (date : DT) (costs : ℚ) (s' : BTState)
    (hp : price ≠ 0)
    (h : execute_backtest_trade cfg s action amount price usd_krw_rate date
          = (.executed costs, s')) :
    costs = calculate_commission_and_slippage cfg amount price ∧
    s'.balance_usd + s'.balance_krw / price
      = (s.balance_usd + s.balance_krw / price) - costs := by
  unfold execute_backtest_trade at h
  obtain ⟨hu, hk, -⟩ := resetDaily_balances s date
  obtain ⟨hc, -, -, -, -, hbuy, hsell⟩ :=
    executeOnDay_executed cfg (resetDailyIfNewDay s date) action amount price
      usd_krw_rate date costs s' h
  refine ⟨hc, ?_⟩
  by_cases hb : action = .BUY
  · obtain ⟨-, h1, h2⟩ := hbuy hb
    rw [h1, h2, hu, hk]
    field_simp
    ring
  · obtain ⟨-, h1, h2⟩ := hsell hb
    rw [h1, h2, hu, hk]
    field_simp
    ring

/-- Witness for C1: a concrete successful BUY (`amount = 100`,
`price = 1300`), whose costs are `100·0.0025 + 100·1300·0.001 = 521/4`. -/
theorem C1_balance_conservation_witness :
    (1300 : ℚ) ≠ 0 ∧
    ((execute_backtest_trade {} (reset_state {}) .BUY 100 1300 1300 ⟨0, 0⟩).2.balance_usd +
      (execute_backtest_trade {} (reset_state {}) .BUY 100 1300 1300 ⟨0, 0⟩).2.balance_krw / 1300
      = ((reset_state {}).balance_usd + (reset_state {}).balance_krw / 1300) - 521/4) := by
  have h1 : (execute_backtest_trade {} (reset_state {}) .BUY 100 1300 1300 ⟨0, 0⟩).1
      = .executed (521/4) := by
    simp [execute_backtest_trade, executeOnDay, resetDailyIfNewDay, reset_state,
      calculate_commission_and_slippage]
    norm_num
  have hexec : execute_backtest_trade {} (reset_state {}) .BUY 100 1300 1300 ⟨0, 0⟩
      = (.executed (521/4),
         (execute_backtest_trade {} (reset_state {}) .BUY 100 1300 1300 ⟨0, 0⟩).2) :=
    Prod.ext_iff.mpr ⟨h1, rfl⟩
  exact ⟨by norm_num,
    (C1_balance_conservation {} (reset_state {}) .BUY 100 1300 1300 ⟨0, 0⟩ (521/4) _
      (by norm_num) hexec).2⟩

/-- C5: `execute_backtest_trade` is atomic and returns structured
rejections: every rejection leaves `balance_usd`, `balance_krw` and the
trades list unchanged and carries one of the three rejection reasons, and
every success applies both legs of the cross-currency mutation together
(and appends exactly one trade record). -/
theorem C5_atomic_structured (cfg : BacktestConfig) (s : BTState) (action : Signal)
    (amount price usd_krw_rate : ℚ) (date : DT) :
    (∀ reason s',
      execute_backtest_trade cfg s action amount price usd_krw_rate date
          = (.rejected reason, s') →
      s'.balance_usd = s.balance_usd ∧ s'.balance_krw = s.balance_krw ∧
      s'.trades = s.trades ∧
      (reason = "Daily trade limit exceeded" ∨ reason = "Insufficient USDT balance" ∨
       reason = "Insufficient KRW balance")) ∧
    (∀ costs s',
      execute_backtest_trade cfg s action amount price usd_krw_rate date
          = (.executed costs, s') →
      (action = .BUY →
        s'.balance_usd = s.balance_usd - (amount + costs) ∧
        s'.balance_krw = s.balance_krw + amount * price) ∧
      (action ≠ .BUY →
        s'.balance_krw = s.balance_krw - amount * price ∧
        s'.balance_usd = s.balance_usd + (amount - costs)) ∧
      ∃ tr, s'.trades = s.trades ++ [tr]) := by
  obtain ⟨hu, hk, ht⟩ := resetDaily_balances s date
  constructor
  · intro reason s' h
    unfold execute_backtest_trade at h
    obtain ⟨hs, hr⟩ :=
      executeOnDay_rejected cfg (resetDailyIfNewDay s date) action amount price
        usd_krw_rate date reason s' h
    subst hs
    exact ⟨hu, hk, ht, hr⟩
  · intro costs s' h
    unfold execute_backtest_trade at h
    obtain ⟨-, -, -, -, ⟨tr, -, -, htr⟩, hbuy, hsell⟩ :=
      executeOnDay_executed cfg (resetDailyIfNewDay s date) action amount price
        usd_krw_rate date costs s' h
    refine ⟨?_, ?_, ⟨tr, by rw [htr, ht]⟩⟩
    · intro hb
      obtain ⟨-, h1, h2⟩ := hbuy hb
      rw [h1, h2, hu, hk]
      exact ⟨rfl, rfl⟩
    · intro hb
      obtain ⟨-, h1, h2⟩ := hsell hb
      rw [h1, h2, hu, hk]
      exact ⟨rfl, rfl⟩

/-- Witness for C5: with `max_trades_per_day = 0` every attempt is rejected
with the daily-limit reason and the balances and trades are untouched. -/
theorem C5_atomic_structured_witness :
    ((execute_backtest_trade { max_trades_per_day := 0 } (reset_state {}) .BUY
        100 1300 1300 ⟨0, 0⟩).2.balance_usd = (reset_state {}).balance_usd ∧
     (execute_backtest_trade { max_trades_per_day := 0 } (reset_state {}) .BUY
        100 1300 1300 ⟨0, 0⟩).2.balance_krw = (reset_state {}).balance_krw ∧
     (execute_backtest_trade { max_trades_per_day := 0 } (reset_state {}) .BUY
        100 1300 1300 ⟨0, 0⟩).2.trades = (reset_state {}).trades ∧
     ("Daily trade limit exceeded" = "Daily trade limit exceeded" ∨
      "Daily trade limit exceeded" = "Insufficient USDT balance" ∨
      "Daily trade limit exceeded" = "Insufficient KRW balance")) := by
  have h1 : (execute_backtest_trade { max_trades_per_day := 0 } (reset_state {}) .BUY
      100 1300 1300 ⟨0, 0⟩).1 = .rejected "Daily trade limit exceeded" := by
    simp [execute_backtest_trade, executeOnDay, resetDailyIfNewDay, reset_state]
  have hexec : execute_backtest_trade { max_trades_per_day := 0 } (reset_state {}) .BUY
      100 1300 1300 ⟨0, 0⟩
      = (.rejected "Daily trade limit exceeded",
         (execute_backtest_trade { max_trades_per_day := 0 } (reset_state {}) .BUY
           100 1300 1300 ⟨0, 0⟩).2) :=
    Prod.ext_iff.mpr ⟨h1, rfl⟩
  exact (C5_atomic_structured { max_trades_per_day := 0 } (reset_state {}) .BUY
    100 1300 1300 ⟨0, 0⟩).1 "Daily trade limit exceeded" _ hexec

/-- C9: `run_backtest` in synthetic mode is a deterministic function of the
configuration and the synthetic data inputs (start day, RNG draw stream,
sine table): the prior mutable instance state is wiped by `reset_state`, so
running the same backtest twice — in particular a second run on the state
left behind by the first — produces an identical `BacktestResult`. -/
theorem C9_synthetic_determinism (cfg : BacktestConfig) (startDay : ℤ)
    (draws : List NoiseDraw) (sine : ℕ → ℚ) (prior1 prior2 : BTState) :
    run_backtest cfg prior1 (generate_synthetic_data startDay draws sine)
      = run_backtest cfg prior2 (generate_synthetic_data startDay draws sine) := rfl

/-- C10 (implicit): every trade record appended by `execute_backtest_trade`
has `success = True` and `profit_loss = 0.0`; consequently, on any state
whose recorded trades all have zero profit_loss (and at least one trade),
`calculate_performance_metrics` returns 0 winning trades, 0 losing trades,
zero win rate and averages, and an infinite profit factor. -/
theorem C10_zero_pl_trades (cfg : BacktestConfig) (s : BTState) (action : Signal)
    (amount price usd_krw_rate : ℚ) (date : DT) :
    (∀ r s',
      execute_backtest_trade cfg s action amount price usd_krw_rate date = (r, s') →
      s'.trades = s.trades ∨
      ∃ tr, s'.trades = s.trades ++ [tr] ∧ tr.success = true ∧ tr.profit_loss = 0) ∧
    (∀ s' : BTState, s'.trades ≠ [] → (∀ t ∈ s'.trades, t.profit_loss = 0) →
      (calculate_performance_metrics cfg s').winning_trades = 0 ∧
      (calculate_performance_metrics cfg s').losing_trades = 0 ∧
      (calculate_performance_metrics cfg s').win_rate = 0 ∧
      (calculate_performance_metrics cfg s').average_win = 0 ∧
      (calculate_performance_metrics cfg s').average_loss = 0 ∧
      (calculate_performance_metrics cfg s').profit_factor = .inf) := by
  obtain ⟨-, -, ht⟩ := resetDaily_balances s date
  constructor
  · intro r s' h
    unfold execute_backtest_trade at h
    cases r with
    | rejected reason =>
      obtain ⟨hs, -⟩ :=
        executeOnDay_rejected cfg (resetDailyIfNewDay s date) action amount price
          usd_krw_rate date reason s' h
      subst hs
      exact Or.inl ht
    | executed costs =>
      obtain ⟨-, -, -, -, ⟨tr, h1, h2, h3⟩, -, -⟩ :=
        executeOnDay_executed cfg (resetDailyIfNewDay s date) action amount price
          usd_krw_rate date costs s' h
      exact Or.inr ⟨tr, by rw [h3, ht], h1, h2⟩
  · intro s' hne hz
    have hf1 : s'.trades.filter (fun t => decide (t.profit_loss > 0)) = [] :=
      List.filter_eq_nil_iff.mpr (fun t htm => by simp [hz t htm])
    have hf2 : s'.trades.filter (fun t => decide (t.profit_loss < 0)) = [] :=
      List.filter_eq_nil_iff.mpr (fun t htm => by simp [hz t htm])
    simp only [calculate_performance_metrics, if_neg hne, hf1, hf2]
    norm_num

/-- Witness for C10 at the concrete one-trade state `stateOneZeroPLTrade`
(one recorded trade with `profit_loss = 0`). -/
theorem C10_zero_pl_trades_witness :
    (calculate_performance_metrics {} stateOneZeroPLTrade).winning_trades = 0 ∧
    (calculate_performance_metrics {} stateOneZeroPLTrade).losing_trades = 0 ∧
    (calculate_performance_metrics {} stateOneZeroPLTrade).win_rate = 0 ∧
    (calculate_performance_metrics {} stateOneZeroPLTrade).average_win = 0 ∧
    (calculate_performance_metrics {} stateOneZeroPLTrade).average_loss = 0 ∧
    (calculate_performance_metrics {} stateOneZeroPLTrade).profit_factor = .inf :=
  (C10_zero_pl_trades {} stateOneZeroPLTrade .BUY 0 0 0 ⟨0, 0⟩).2 stateOneZeroPLTrade
    (by decide) (by decide)

/-! ## Claim C2 -/

/-- Counterexample for C2: a zero-trade run over one HOLD observation with
USD/KRW rate 1000.  The equity curve is `[11500]`, so the equity-curve
derived return is `(11500 - 10000)/10000*100 = 15`, but the code computes
`return_percentage` from the final balances at the fixed conversion rate
1300, giving `0`. -/
theorem C2_counterexample :
    (run_backtest {} (reset_state {}) [holdRow]).total_trades = 0 ∧
    (run_backtest {} (reset_state {}) [holdRow]).initial_balance = 10000 ∧
    (run_backtest {} (reset_state {}) [holdRow]).equity_curve = [11500] ∧
    (run_backtest {} (reset_state {}) [holdRow]).return_percentage = 0 ∧
    (11500 - 10000 : ℚ) / 10000 * 100 = 15 ∧ (0 : ℚ) ≠ 15 := by
  refine ⟨?_, ?_, ?_, ?_, by norm_num, by norm_num⟩ <;>
    (norm_num [run_backtest, runLoop, backtestStep, calculate_signal, reset_state,
      calculate_performance_metrics, initial_value, final_value, holdRow] <;>
      simp <;> norm_num)

/-- C2 (amended): for every state with zero recorded trades,
`calculate_performance_metrics` returns all trade-derived metrics equal to
0, and `return_percentage` is computed from the final *balances* converted
at the fixed rate 1300 — `(final_value - initial_value)/initial_value*100`
(0 when `initial_value ≤ 0`) — not from the equity curve. -/
theorem C2_zero_trades_metrics (cfg : BacktestConfig) (s : BTState)
    (h : s.trades = []) :
    (calculate_performance_metrics cfg s).total_trades = 0 ∧
    (calculate_performance_metrics cfg s).winning_trades = 0 ∧
    (calculate_performance_metrics cfg s).losing_trades = 0 ∧
    (calculate_performance_metrics cfg s).win_rate = 0 ∧
    (calculate_performance_metrics cfg s).profit_factor = .val 0 ∧
    (calculate_performance_metrics cfg s).average_win = 0 ∧
    (calculate_performance_metrics cfg s).average_loss = 0 ∧
    (calculate_performance_metrics cfg s).return_percentage =
      (if initial_value cfg > 0 then
        (final_value s - initial_value cfg) / initial_value cfg * 100 else 0) := by
  simp [calculate_performance_metrics, h]

/-- Witness for C2 at the freshly reset default state. -/
theorem C2_zero_trades_metrics_witness :
    (calculate_performance_metrics {} (reset_state {})).total_trades = 0 ∧
    (calculate_performance_metrics {} (reset_state {})).winning_trades = 0 ∧
    (calculate_performance_metrics {} (reset_state {})).losing_trades = 0 ∧
    (calculate_performance_metrics {} (reset_state {})).win_rate = 0 ∧
    (calculate_performance_metrics {} (reset_state {})).profit_factor = .val 0 ∧
    (calculate_performance_metrics {} (reset_state {})).average_win = 0 ∧
    (calculate_performance_metrics {} (reset_state {})).average_loss = 0 ∧
    (calculate_performance_metrics {} (reset_state {})).return_percentage =
      (if initial_value {} > 0 then
        (final_value (reset_state {}) - initial_value {}) / initial_value {} * 100
       else 0) :=
  C2_zero_trades_metrics {} (reset_state {}) (by decide)

/-! ## Claim C6 -/

theorem totalLosses_pos_iff (l : List TradeRecord) :
    0 < ((l.filter (fun t => t.profit_loss < 0)).map (fun t => |t.profit_loss|)).sum ↔
      ∃ t ∈ l, t.profit_loss < 0 := by
  constructor
  · intro hpos
    by_contra hno
    push_neg at hno
    have hnil : l.filter (fun t => t.profit_loss < 0) = [] :=
      List.filter_eq_nil_iff.mpr (fun t ht => by simp [not_lt.mpr (hno t ht)])
    rw [hnil] at hpos
    simp at hpos
  · rintro ⟨t, ht, hneg⟩
    have hmem : t ∈ l.filter (fun t => t.profit_loss < 0) :=
      List.mem_filter.mpr ⟨ht, by simpa using hneg⟩
    apply List.sum_pos
    · intro x hx
      simp only [List.mem_map, List.mem_filter] at hx
      obtain ⟨u, ⟨-, hult⟩, rfl⟩ := hx
      exact abs_pos.mpr (ne_of_lt (by simpa using hult))
    · exact List.ne_nil_of_mem (List.mem_map_of_mem _ hmem)

/-- Counterexample for C6: on a state with exactly one recorded trade of
`profit_loss = 0`, the code returns `profit_factor = inf` although there is
no winning trade — so "infinite exactly when no losing trades exist *and at
least one winning trade exists*" is false. -/
theorem C6_counterexample :
    ¬ ((calculate_performance_metrics {} stateOneZeroPLTrade).profit_factor = .inf ↔
        ((calculate_performance_metrics {} stateOneZeroPLTrade).losing_trades = 0 ∧
         0 < (calculate_performance_metrics {} stateOneZeroPLTrade).winning_trades)) := by
  intro hiff
  have h1 : (calculate_performance_metrics {} stateOneZeroPLTrade).profit_factor = .inf := by
    norm_num [calculate_performance_metrics, stateOneZeroPLTrade, zeroPLTrade,
      List.filter]
  have h2 : (calculate_performance_metrics {} stateOneZeroPLTrade).winning_trades = 0 := by
    norm_num [calculate_performance_metrics, stateOneZeroPLTrade, zeroPLTrade,
      List.filter]
  have h3 := (hiff.mp h1).2
  rw [h2] at h3
  exact lt_irrefl 0 h3

/-- C6 (amended): given at least one recorded trade, `profit_factor` equals
`sum(positive profit_loss) / sum(abs(negative profit_loss))` whenever a
losing trade exists, and it is infinite exactly when *no losing trade
exists* (regardless of whether any winning trade exists). -/
theorem C6_profit_factor (cfg : BacktestConfig) (s : BTState) (h : s.trades ≠ []) :
    ((∃ t ∈ s.trades, t.profit_loss < 0) →
      (calculate_performance_metrics cfg s).profit_factor =
        .val ((((s.trades.filter (fun t => t.profit_loss > 0)).map
                  (fun t => t.profit_loss)).sum) /
              (((s.trades.filter (fun t => t.profit_loss < 0)).map
                  (fun t => |t.profit_loss|)).sum))) ∧
    ((calculate_performance_metrics cfg s).profit_factor = .inf ↔
      ¬ ∃ t ∈ s.trades, t.profit_loss < 0) := by
  have hiff := totalLosses_pos_iff s.trades
  constructor
  · intro hex
    have hpos := hiff.mpr hex
    simp only [calculate_performance_metrics]
    rw [if_neg h]
    dsimp only
    rw [if_pos hpos]
  · constructor
    · intro hpf hex
      have hpos := hiff.mpr hex
      have : (calculate_performance_metrics cfg s).profit_factor =
          .val ((((s.trades.filter (fun t => t.profit_loss > 0)).map
                    (fun t => t.profit_loss)).sum) /
                (((s.trades.filter (fun t => t.profit_loss < 0)).map
                    (fun t => |t.profit_loss|)).sum)) := by
        simp only [calculate_performance_metrics]
        rw [if_neg h]
        dsimp only
        rw [if_pos hpos]
      rw [hpf] at this
      exact absurd this (by simp)
    · intro hnex
      have hnpos : ¬ 0 < ((s.trades.filter (fun t => t.profit_loss < 0)).map
          (fun t => |t.profit_loss|)).sum := fun hp => hnex (hiff.mp hp)
      simp only [calculate_performance_metrics]
      rw [if_neg h]
      dsimp only
      rw [if_neg hnpos]

/-- Witness for C6 at the one-losing-trade state: the profit factor is the
quotient of the win sum by the loss sum. -/
theorem C6_profit_factor_witness :
    (calculate_performance_metrics {} stateOneLossTrade).profit_factor =
      .val ((((stateOneLossTrade.trades.filter (fun t => t.profit_loss > 0)).map
                (fun t => t.profit_loss)).sum) /
            (((stateOneLossTrade.trades.filter (fun t => t.profit_loss < 0)).map
                (fun t => |t.profit_loss|)).sum)) :=
  (C6_profit_factor {} stateOneLossTrade (by decide)).1 (by decide)

/-! ## Claim C3 -/

theorem countExecuted_nil : countExecuted [] = 0 := rfl

theorem countExecuted_cons_rejected (reason : String) (rs : List TradeResult) :
    countExecuted (.rejected reason :: rs) = countExecuted rs := rfl

theorem countExecuted_cons_executed (c : ℚ) (rs : List TradeResult) :
    countExecuted (.executed c :: rs) = countExecuted rs + 1 := rfl

/-- A daily-limit rejection can only happen when the (post-reset) daily
counter has reached the limit. -/
theorem executeOnDay_daily_reason (cfg : BacktestConfig) (s : BTState) (action : Signal)
    (amount price usd_krw_rate : ℚ) (date : DT) (s' : BTState)
    (h : executeOnDay cfg s action amount price usd_krw_rate date
          = (.rejected "Daily trade limit exceeded", s')) :
    cfg.max_trades_per_day ≤ s.daily_trade_count := by
  simp only [executeOnDay] at h
  split at h
  · next hc => exact hc
  · split at h
    · split at h
      · exact absurd h (by simp)
      · simp only [Prod.mk.injEq, TradeResult.rejected.injEq] at h
        exact absurd h.1 (by decide)
    · split at h
      · exact absurd h (by simp)
      · simp only [Prod.mk.injEq, TradeResult.rejected.injEq] at h
        exact absurd h.1 (by decide)

/-- Running same-day attempts from a state already keyed to that day
executes at most `max_trades_per_day - daily_trade_count` trades. -/
theorem runAttempts_le (cfg : BacktestConfig) (d : ℤ) :
    ∀ (attempts : List TradeAttempt) (s : BTState),
      (∀ a ∈ attempts, a.date.day = d) → s.last_trade_date = some d →
      countExecuted (runAttempts cfg s attempts).1 ≤
        cfg.max_trades_per_day - s.daily_trade_count := by
  intro attempts
  induction attempts with
  | nil =>
    intro s _ _
    simp [runAttempts, countExecuted_nil]
  | cons a rest ih =>
    intro s hdays hlast
    have hday : a.date.day = d := hdays a (by simp)
    have hsame : s.last_trade_date = some a.date.day := by rw [hday]; exact hlast
    have hrest : ∀ b ∈ rest, b.date.day = d := fun b hb => hdays b (by simp [hb])
    simp only [runAttempts]
    rcases hr : execute_backtest_trade cfg s a.action a.amount a.price
        a.usd_krw_rate a.date with ⟨r, s2⟩
    unfold execute_backtest_trade at hr
    rw [resetDaily_of_eq hsame] at hr
    cases r with
    | rejected reason =>
      obtain ⟨hs2, -⟩ := executeOnDay_rejected cfg s a.action a.amount a.price
        a.usd_krw_rate a.date reason s2 hr
      dsimp only
      rw [countExecuted_cons_rejected, hs2]
      exact ih s hrest hlast
    | executed c =>
      obtain ⟨-, hlt, hcnt, hl2, -, -, -⟩ := executeOnDay_executed cfg s a.action
        a.amount a.price a.usd_krw_rate a.date c s2 hr
      dsimp only
      rw [countExecuted_cons_executed]
      have h2 := ih s2 hrest (by rw [hl2]; exact hlast)
      omega

/-- C3: with `max_trades_per_day = N`, (a) any sequence of calls to
`execute_backtest_trade` carrying the same calendar date, started on a
fresh day, executes at most `N` trades; (b) once the daily counter has
reached `N` on that date, every further attempt returns the structured
rejection `{'success': False, 'reason': 'Daily trade limit exceeded'}` and
leaves the state unchanged; (c) when the calendar day of the observation
changes the counter is reset, so a fresh-day attempt is never rejected for
the daily limit (when `N ≥ 1`); and (d) concretely, with `N = 1` and five
signal-driven attempts on one calendar day, exactly 1 trade executes and 4
are rejected with that reason. -/
theorem C3_daily_trade_limit (cfg : BacktestConfig) (d : ℤ)
    (attempts : List TradeAttempt) (s : BTState) :
    (s.last_trade_date ≠ some d → (∀ a ∈ attempts, a.date.day = d) →
      countExecuted (runAttempts cfg s attempts).1 ≤ cfg.max_trades_per_day) ∧
    (∀ a : TradeAttempt, s.last_trade_date = some a.date.day →
      cfg.max_trades_per_day ≤ s.daily_trade_count →
      execute_backtest_trade cfg s a.action a.amount a.price a.usd_krw_rate a.date
        = (.rejected "Daily trade limit exceeded", s)) ∧
    (∀ a : TradeAttempt, s.last_trade_date ≠ some a.date.day →
      1 ≤ cfg.max_trades_per_day →
      (execute_backtest_trade cfg s a.action a.amount a.price a.usd_krw_rate a.date).1
        ≠ .rejected "Daily trade limit exceeded") ∧
    ((runAttempts cfgDailyOne (reset_state cfgDailyOne) fiveAttempts).1 =
      [.executed (521/4), .rejected "Daily trade limit exceeded",
       .rejected "Daily trade limit exceeded", .rejected "Daily trade limit exceeded",
       .rejected "Daily trade limit exceeded"] ∧
     countExecuted (runAttempts cfgDailyOne (reset_state cfgDailyOne) fiveAttempts).1
       = 1) := by
  refine ⟨?_, ?_, ?_, ?_⟩
  · intro hne hdays
    cases attempts with
    | nil => simp [runAttempts, countExecuted_nil]
    | cons a rest =>
      have hday : a.date.day = d := hdays a (by simp)
      have hne' : s.last_trade_date ≠ some a.date.day := by rw [hday]; exact hne
      have hrest : ∀ b ∈ rest, b.date.day = d := fun b hb => hdays b (by simp [hb])
      simp only [runAttempts]
      rcases hr : execute_backtest_trade cfg s a.action a.amount a.price
          a.usd_krw_rate a.date with ⟨r, s2⟩
      unfold execute_backtest_trade at hr
      rw [resetDaily_of_ne hne'] at hr
      cases r with
      | rejected reason =>
        obtain ⟨hs2, -⟩ := executeOnDay_rejected cfg _ a.action a.amount a.price
          a.usd_krw_rate a.date reason s2 hr
        subst hs2
        dsimp only
        rw [countExecuted_cons_rejected]
        calc countExecuted (runAttempts cfg _ rest).1
            ≤ cfg.max_trades_per_day - 0 := runAttempts_le cfg d rest _ hrest (by simpa using hday)
          _ ≤ cfg.max_trades_per_day := by omega
      | executed c =>
        obtain ⟨-, hlt, hcnt, hl2, -, -, -⟩ := executeOnDay_executed cfg _ a.action
          a.amount a.price a.usd_krw_rate a.date c s2 hr
        dsimp only
        rw [countExecuted_cons_executed]
        have h2 := runAttempts_le cfg d rest s2 hrest (by rw [hl2]; simpa using hday)
        simp only at hlt hcnt
        omega
  · intro a hsame hge
    unfold execute_backtest_trade
    rw [resetDaily_of_eq hsame]
    exact executeOnDay_limit cfg s a.action a.amount a.price a.usd_krw_rate a.date hge
  · intro a hne hN hcontra
    have hpair : execute_backtest_trade cfg s a.action a.amount a.price
        a.usd_krw_rate a.date
        = (.rejected "Daily trade limit exceeded",
           (execute_backtest_trade cfg s a.action a.amount a.price
             a.usd_krw_rate a.date).2) := Prod.ext_iff.mpr ⟨hcontra, rfl⟩
    unfold execute_backtest_trade at hpair
    rw [resetDaily_of_ne hne] at hpair
    have := executeOnDay_daily_reason cfg _ a.action a.amount a.price
      a.usd_krw_rate a.date _ hpair
    simp only at this
    omega
  · constructor
    · norm_num [runAttempts, execute_backtest_trade, executeOnDay, resetDailyIfNewDay,
        reset_state, cfgDailyOne, fiveAttempts, buyAttemptAt,
        calculate_commission_and_slippage] <;> simp <;> norm_num
    · norm_num [runAttempts, execute_backtest_trade, executeOnDay, resetDailyIfNewDay,
        reset_state, cfgDailyOne, fiveAttempts, buyAttemptAt,
        calculate_commission_and_slippage, countExecuted, List.filter] <;> simp <;> norm_num

/-- Witness for C3: its fresh-day bound, limit rejection and fresh-day
non-rejection instantiated concretely (limit 1, day 0). -/
theorem C3_daily_trade_limit_witness :
    countExecuted (runAttempts cfgDailyOne (reset_state cfgDailyOne) fiveAttempts).1
      ≤ cfgDailyOne.max_trades_per_day ∧
    execute_backtest_trade cfgDailyOne
      { reset_state cfgDailyOne with daily_trade_count := 1, last_trade_date := some 0 }
      .BUY 100 1300 1300 ⟨0, 5⟩
      = (.rejected "Daily trade limit exceeded",
         { reset_state cfgDailyOne with daily_trade_count := 1, last_trade_date := some 0 }) ∧
    (execute_backtest_trade cfgDailyOne (reset_state cfgDailyOne)
      .BUY 100 1300 1300 ⟨0, 5⟩).1 ≠ .rejected "Daily trade limit exceeded" := by
  refine ⟨?_, ?_, ?_⟩
  · exact (C3_daily_trade_limit cfgDailyOne 0 fiveAttempts (reset_state cfgDailyOne)).1
      (by decide) (by decide)
  · exact (C3_daily_trade_limit cfgDailyOne 0 fiveAttempts
      { reset_state cfgDailyOne with daily_trade_count := 1, last_trade_date := some 0 }).2.1
      (buyAttemptAt 5) (by decide) (by decide)
  · exact (C3_daily_trade_limit cfgDailyOne 0 fiveAttempts (reset_state cfgDailyOne)).2.2.1
      (buyAttemptAt 5) (by decide) (by decide)

/-! ## Claim C7 -/

theorem foldl_drawdown_snd :
    ∀ (l : List ℚ) (p m : ℚ), (l.foldl drawdownFoldStep (p, m)).2 = mddAux p m l := by
  intro l
  induction l with
  | nil => intro p m; rfl
  | cons v rest ih =>
    intro p m
    simp only [List.foldl_cons, drawdownFoldStep, mddAux]
    exact ih _ _

theorem mddAux_mono : ∀ (l : List ℚ) (p m : ℚ), m ≤ mddAux p m l := by
  intro l
  induction l with
  | nil => intro p m; exact le_refl m
  | cons v rest ih =>
    intro p m
    simp only [mddAux]
    exact le_trans (le_max_left _ _) (ih _ _)

theorem mddAux_chain_zero :
    ∀ (l : List ℚ) (p : ℚ), (∀ x ∈ l, p ≤ x) → List.Chain' (· ≤ ·) l →
      mddAux p 0 l = 0 := by
  intro l
  induction l with
  | nil => intro p _ _; rfl
  | cons v rest ih =>
    intro p hall hchain
    have hpv : p ≤ v := hall v (by simp)
    have hpk : (if v > p then v else p) = v := by
      by_cases h : v > p
      · rw [if_pos h]
      · rw [if_neg h]
        exact le_antisymm hpv (not_lt.mp h)
    simp only [mddAux, hpk, sub_self, zero_div, zero_mul, max_self]
    apply ih v ?_ hchain.tail
    intro x hx
    have hpw := List.chain'_iff_pairwise.mp hchain
    exact (List.pairwise_cons.mp hpw).1 x hx

theorem runPeak_cons (p v : ℚ) (rest : List ℚ) (t : ℕ) :
    runPeak p (v :: rest) (t + 1) = runPeak (max p v) rest t := by
  simp [runPeak, List.take_succ_cons]

theorem ddFrom_cons (p v : ℚ) (rest : List ℚ) (t : ℕ) :
    ddFrom p (v :: rest) (t + 1) = ddFrom (max p v) rest t := by
  simp [ddFrom, runPeak_cons]

theorem ddFrom_zero (p v : ℚ) (rest : List ℚ) :
    ddFrom p (v :: rest) 0 = (max p v - v) / max p v * 100 := by
  simp [ddFrom, runPeak]

theorem ite_gt_eq_max (p v : ℚ) : (if v > p then v else p) = max p v := by
  by_cases h : v > p
  · rw [if_pos h, max_eq_right h.le]
  · rw [if_neg h, max_eq_left (not_lt.mp h)]

theorem mddAux_spec : ∀ (l : List ℚ) (p m : ℚ),
    (mddAux p m l = m ∨ ∃ t, t < l.length ∧ mddAux p m l = ddFrom p l t) ∧
    (∀ t, t < l.length → ddFrom p l t ≤ mddAux p m l) := by
  intro l
  induction l with
  | nil =>
    intro p m
    exact ⟨Or.inl rfl, fun t ht => absurd ht (by simp)⟩
  | cons v rest ih =>
    intro p m
    have hstep : mddAux p m (v :: rest)
        = mddAux (max p v) (max m ((max p v - v) / max p v * 100)) rest := by
      simp only [mddAux, ite_gt_eq_max]
    obtain ⟨ihmem, ihub⟩ := ih (max p v) (max m ((max p v - v) / max p v * 100))
    constructor
    · rcases ihmem with heq | ⟨t, ht, heq⟩
      · rcases max_choice m ((max p v - v) / max p v * 100) with hm | hm
        · exact Or.inl (by rw [hstep, heq, hm])
        · refine Or.inr ⟨0, by simp, ?_⟩
          rw [hstep, heq, hm, ddFrom_zero]
      · refine Or.inr ⟨t + 1, by simpa using ht, ?_⟩
        rw [hstep, heq, ddFrom_cons]
    · intro t ht
      cases t with
      | zero =>
        rw [ddFrom_zero, hstep]
        exact le_trans (le_max_right _ _) (mddAux_mono _ _ _)
      | succ t =>
        rw [ddFrom_cons, hstep]
        exact ihub t (by simpa using ht)

theorem specDrawdown_eq_ddFrom (e0 : ℚ) (rest : List ℚ) (t : ℕ) :
    specDrawdown (e0 :: rest) t = ddFrom e0 (e0 :: rest) t := by
  have hpeak : peakTo (e0 :: rest) t = runPeak e0 (e0 :: rest) t := by
    cases t with
    | zero => simp [peakTo, runPeak, List.take_succ_cons]
    | succ t => simp [peakTo, runPeak, List.take_succ_cons, max_self]
  simp [specDrawdown, ddFrom, hpeak]

theorem specDrawdown_zero_head (e0 : ℚ) (rest : List ℚ) :
    specDrawdown (e0 :: rest) 0 = 0 := by
  simp [specDrawdown, peakTo]

/-- C7: `calculate_max_drawdown` is always nonnegative; it is 0 on the
empty curve and on every monotonically non-decreasing curve; and on a
nonempty curve it equals the maximum over `t` of the spec formula
`(peak_to_t - equity_t) / peak_to_t * 100` (it is a member of the list of
spec drawdown values and an upper bound of that list). -/
theorem C7_max_drawdown (l : List ℚ) :
    0 ≤ calculate_max_drawdown l ∧
    (l = [] → calculate_max_drawdown l = 0) ∧
    (List.Chain' (· ≤ ·) l → calculate_max_drawdown l = 0) ∧
    (l ≠ [] → calculate_max_drawdown l ∈ specDrawdownList l ∧
      ∀ x ∈ specDrawdownList l, x ≤ calculate_max_drawdown l) := by
  cases l with
  | nil =>
    refine ⟨le_refl 0, fun _ => rfl, fun _ => rfl, fun h => absurd rfl h⟩
  | cons e0 rest =>
    have hcalc : calculate_max_drawdown (e0 :: rest) = mddAux e0 0 (e0 :: rest) := by
      simp only [calculate_max_drawdown]
      exact foldl_drawdown_snd _ _ _
    obtain ⟨hmem, hub⟩ := mddAux_spec (e0 :: rest) e0 0
    refine ⟨?_, by simp, ?_, fun _ => ⟨?_, ?_⟩⟩
    · rw [hcalc]
      exact mddAux_mono _ _ _
    · intro hchain
      rw [hcalc]
      apply mddAux_chain_zero
      · intro x hx
        rcases List.mem_cons.mp hx with hx0 | hxr
        · exact le_of_eq hx0.symm
        · exact (List.pairwise_cons.mp (List.chain'_iff_pairwise.mp hchain)).1 x hxr
      · exact hchain
    · rcases hmem with heq | ⟨t, ht, heq⟩
      · rw [hcalc, heq, ← specDrawdown_zero_head e0 rest]
        exact List.mem_map_of_mem _ (List.mem_range.mpr (by simp))
      · rw [hcalc, heq, ← specDrawdown_eq_ddFrom]
        exact List.mem_map_of_mem _ (List.mem_range.mpr ht)
    · intro x hx
      obtain ⟨t, htr, rfl⟩ := List.mem_map.mp hx
      rw [hcalc, specDrawdown_eq_ddFrom]
      exact hub t (List.mem_range.mp htr)

/-- Witness for C7: the curve `[10, 5]` has maximum drawdown 50, which is
the maximum of its spec drawdown values; the non-decreasing curve `[1, 2]`
has drawdown 0. -/
theorem C7_max_drawdown_witness :
    calculate_max_drawdown [(10 : ℚ), 5] ∈ specDrawdownList [(10 : ℚ), 5] ∧
    (∀ x ∈ specDrawdownList [(10 : ℚ), 5], x ≤ calculate_max_drawdown [(10 : ℚ), 5]) ∧
    calculate_max_drawdown [(1 : ℚ), 2] = 0 := by
  refine ⟨((C7_max_drawdown [(10 : ℚ), 5]).2.2.2 (by simp)).1, ?_, ?_⟩
  · exact ((C7_max_drawdown [(10 : ℚ), 5]).2.2.2 (by simp)).2
  · exact (C7_max_drawdown [(1 : ℚ), 2]).2.2.1 (by norm_num [List.chain'_cons])

/-! ## Claim C4 -/

/-- The scaled entry loop either leaves the state unchanged, or opens
exactly one position at an unused entry level (recording a matching ENTRY
trade and marking the level used), and only while fewer positions than
entry levels are open. -/
theorem scaledEntryLoop_cases (cfg : BitcoinBacktestConfig) (row : BRow) :
    ∀ (levels : List ℚ) (s : SimState),
      scaledEntryLoop cfg row s levels = s ∨
      ∃ l pos et,
        (scaledEntryLoop cfg row s levels).open_positions
            = s.open_positions ++ [pos] ∧
        (scaledEntryLoop cfg row s levels).used_entry_levels
            = l :: s.used_entry_levels ∧
        (scaledEntryLoop cfg row s levels).trades = s.trades ++ [.entry et] ∧
        Position.entry_level pos = some l ∧ EntryTrade.entry_level et = some l ∧
        l ∉ s.used_entry_levels ∧
        s.open_positions.length < scaledEntryLevels.length := by
  intro levels
  induction levels with
  | nil => intro s; exact Or.inl rfl
  | cons lv rest ih =>
    intro s
    simp only [scaledEntryLoop]
    split
    · next hcond =>
      split
      · split
        · exact Or.inr ⟨lv, _, _, rfl, rfl, rfl, rfl, rfl, hcond.2.1, hcond.2.2⟩
        · exact ih s
      · exact ih s
    · exact ih s

/-- Field effects of closing one collected position. -/
theorem closePosition_fields (cfg : BitcoinBacktestConfig) (row : BRow)
    (s : SimState) (p : ℕ × ℚ) :
    ((closePosition cfg row s p).open_positions = s.open_positions ∨
     (closePosition cfg row s p).open_positions = s.open_positions.eraseIdx p.1) ∧
    ((closePosition cfg row s p).trades = s.trades ∨
     ∃ x, (closePosition cfg row s p).trades = s.trades ++ [.exit x]) ∧
    (closePosition cfg row s p).used_entry_levels = s.used_entry_levels := by
  unfold closePosition
  split
  · exact ⟨Or.inl rfl, Or.inl rfl, rfl⟩
  · exact ⟨Or.inr rfl, Or.inr ⟨_, rfl⟩, rfl⟩

theorem closeFold_C4 (cfg : BitcoinBacktestConfig) (row : BRow) :
    ∀ (ps : List (ℕ × ℚ)) (s : SimState),
      (ps.foldl (closePosition cfg row) s).open_positions.length
          ≤ s.open_positions.length ∧
      (ps.foldl (closePosition cfg row) s).trades.filterMap entryLevelOf
          = s.trades.filterMap entryLevelOf ∧
      (ps.foldl (closePosition cfg row) s).used_entry_levels
          = s.used_entry_levels := by
  intro ps
  induction ps with
  | nil => intro s; exact ⟨le_refl _, rfl, rfl⟩
  | cons p rest ih =>
    intro s
    simp only [List.foldl_cons]
    obtain ⟨ho, htr, hu⟩ := closePosition_fields cfg row s p
    obtain ⟨iho, ihtr, ihu⟩ := ih (closePosition cfg row s p)
    refine ⟨?_, ?_, by rw [ihu, hu]⟩
    · refine Nat.le_trans iho ?_
      rcases ho with h | h <;> rw [h]
      rw [List.length_eraseIdx]
      split <;> omega
    · rw [ihtr]
      rcases htr with h | ⟨x, h⟩ <;> rw [h]
      rw [List.filterMap_append]
      simp [entryLevelOf]

theorem simStep_C4 (cfg : BitcoinBacktestConfig) (row : BRow)
    (hscaled : cfg.use_scaled_strategy = true) (s : SimState)
    (h : C4Inv s) : C4Inv (simStep cfg s row) := by
  obtain ⟨h1, h2, h3⟩ := h
  have hentry : C4Inv (scaledEntryLoop cfg row s scaledEntryLevels) := by
    rcases scaledEntryLoop_cases cfg row scaledEntryLevels s with
      heq | ⟨l, pos, et, hopen, hused, htr, -, hlev, hnotused, hlen⟩
    · rw [heq]; exact ⟨h1, h2, h3⟩
    · refine ⟨?_, ?_, ?_⟩
      · rw [hopen]
        simpa using hlen
      · rw [htr, List.filterMap_append]
        have : List.filterMap entryLevelOf [BTrade.entry et] = [l] := by
          simp [entryLevelOf, hlev]
        rw [this, List.nodup_append]
        refine ⟨h2, List.nodup_singleton l, ?_⟩
        intro x hx hx1
        rw [List.mem_singleton] at hx1
        subst hx1
        exact hnotused (h3 x hx)
      · intro x hx
        rw [htr, List.filterMap_append] at hx
        rw [hused]
        rcases List.mem_append.mp hx with hx | hx
        · exact List.mem_cons_of_mem _ (h3 x hx)
        · have : x = l := by
            simpa [entryLevelOf, hlev] using hx
          rw [this]
          exact List.mem_cons_self _ _
  unfold simStep
  rw [if_pos hscaled]
  obtain ⟨e1, e2, e3⟩ := hentry
  obtain ⟨c1, c2, c3⟩ := closeFold_C4 cfg row
    (collectCloses cfg row (scaledEntryLoop cfg row s scaledEntryLevels).open_positions 0
      (scaledEntryLoop cfg row s scaledEntryLevels).used_exit_levels).1.reverse
    { scaledEntryLoop cfg row s scaledEntryLevels with
        used_exit_levels :=
          (collectCloses cfg row
            (scaledEntryLoop cfg row s scaledEntryLevels).open_positions 0
            (scaledEntryLoop cfg row s scaledEntryLevels).used_exit_levels).2 }
  exact ⟨le_trans c1 e1, by rw [c2]; exact e2, by rw [c2, c3]; exact e3⟩

theorem simulateStates_C4 (cfg : BitcoinBacktestConfig)
    (hscaled : cfg.use_scaled_strategy = true) :
    ∀ (rows : List BRow), C4Inv (simulateStates cfg rows) := by
  have hinit : C4Inv (initSimState cfg) := by
    refine ⟨by simp [initSimState], by simp [initSimState], by simp [initSimState]⟩
  have hfold : ∀ (rows : List BRow) (s : SimState), C4Inv s →
      C4Inv (rows.foldl (simStep cfg) s) := by
    intro rows
    induction rows with
    | nil => intro s hs; exact hs
    | cons row rest ih =>
      intro s hs
      exact ih _ (simStep_C4 cfg row hscaled s hs)
  intro rows
  exact hfold rows _ hinit

/-- C4: in scaled mode, at every step of `simulate_trades` (i.e. after any
prefix of the data), no entry level has been used to open more than one
position (the recorded ENTRY levels are pairwise distinct) and the number
of open positions never exceeds the number of entry levels (the 9-level
ladder 0.0 … -4.0). -/
theorem C4_scaled_invariant (cfg : BitcoinBacktestConfig) (rows : List BRow) (n : ℕ)
    (hscaled : cfg.use_scaled_strategy = true) :
    (simulateStates cfg (rows.take n)).open_positions.length
        ≤ scaledEntryLevels.length ∧
    ((simulateStates cfg (rows.take n)).trades.filterMap entryLevelOf).Nodup := by
  obtain ⟨h1, h2, -⟩ := simulateStates_C4 cfg hscaled (rows.take n)
  exact ⟨h1, h2⟩

/-- Witness for C4 at the default configuration (scaled mode on) and an
empty data frame. -/
theorem C4_scaled_invariant_witness :
    (simulateStates {} (([] : List BRow).take 0)).open_positions.length
        ≤ scaledEntryLevels.length ∧
    ((simulateStates {} (([] : List BRow).take 0)).trades.filterMap entryLevelOf).Nodup :=
  C4_scaled_invariant {} [] 0 rfl

/-! ## Claim C8 -/

/-- A successful scaled exit-level search implies the position's
(present) entry level is at most `-0.5`. -/
theorem scaledFindExit_some (row : BRow) (pos : Position) (used : List ℚ) :
    ∀ (levels : List ℚ) (lvl : ℚ), scaledFindExit row pos used levels = some lvl →
      ∃ v, pos.entry_level = some v ∧ v ≤ -1/2 := by
  intro levels
  induction levels with
  | nil => intro lvl h; exact absurd h (by simp [scaledFindExit])
  | cons e rest ih =>
    intro lvl h
    simp only [scaledFindExit] at h
    split at h
    · next hc =>
      have h3 := hc.2.2
      cases hel : pos.entry_level with
      | none =>
        rw [hel] at h3
        norm_num at h3
      | some v =>
        rw [hel] at h3
        exact ⟨v, rfl, by simpa using h3⟩
    · exact ih lvl h

/-- In scaled mode, `positions_to_close` indexes only positions whose
entry level is at most `-0.5`, its indices start at the enumeration base
and are strictly increasing. -/
theorem collectCloses_spec (cfg : BitcoinBacktestConfig) (row : BRow)
    (hscaled : cfg.use_scaled_strategy = true) :
    ∀ (positions : List Position) (i : ℕ) (used : List ℚ),
      (∀ pr ∈ (collectCloses cfg row positions i used).1,
        ∃ j, ∃ hj : j < positions.length, pr.1 = i + j ∧
          ∃ v, positions[j].entry_level = some v ∧ v ≤ -1/2) ∧
      (∀ pr ∈ (collectCloses cfg row positions i used).1, i ≤ pr.1) ∧
      List.Pairwise (fun a b => a.1 < b.1) (collectCloses cfg row positions i used).1 := by
  intro positions
  induction positions with
  | nil =>
    intro i used
    refine ⟨?_, ?_, ?_⟩ <;> simp [collectCloses]
  | cons pos rest ih =>
    intro i used
    simp only [collectCloses, hscaled, reduceIte]
    cases hfe : scaledFindExit row pos used scaledExitLevels with
    | some lvl =>
      simp only [hfe]
      obtain ⟨ih1, ih2, ih3⟩ := ih (i + 1) (lvl :: used)
      refine ⟨?_, ?_, ?_⟩
      · intro pr hpr
        rcases List.mem_cons.mp hpr with rfl | hmem
        · obtain ⟨v, hv, hvle⟩ := scaledFindExit_some row pos used scaledExitLevels lvl hfe
          exact ⟨0, by simp, by simp, v, by simpa using hv, hvle⟩
        · obtain ⟨j, hj, hj2, v, hv, hvle⟩ := ih1 pr hmem
          refine ⟨j + 1, by simpa using Nat.succ_lt_succ hj, by omega, v, ?_, hvle⟩
          simpa using hv
      · intro pr hpr
        rcases List.mem_cons.mp hpr with rfl | hmem
        · exact le_refl _
        · exact le_trans (Nat.le_succ i) (ih2 pr hmem)
      · refine List.pairwise_cons.mpr ⟨?_, ih3⟩
        intro b hb
        have := ih2 b hb
        omega
    | none =>
      simp only [hfe]
      obtain ⟨ih1, ih2, ih3⟩ := ih (i + 1) used
      refine ⟨?_, ?_, ih3⟩
      · intro pr hpr
        obtain ⟨j, hj, hj2, v, hv, hvle⟩ := ih1 pr hpr
        refine ⟨j + 1, by simpa using Nat.succ_lt_succ hj, by omega, v, ?_, hvle⟩
        simpa using hv
      · intro pr hpr
        exact le_trans (Nat.le_succ i) (ih2 pr hpr)

theorem getElem?_eraseIdx_lt {α : Type _} (l : List α) (i j : ℕ) (hj : j < i)
    (hi : i ≤ l.length) : (l.eraseIdx i)[j]? = l[j]? := by
  rw [List.eraseIdx_eq_take_drop_succ]
  rw [List.getElem?_append_left (by rw [List.length_take_of_le hi]; exact hj)]
  rw [List.getElem?_take, if_pos hj]

/-- Erasing a position whose entry level is not `some 0` does not change
the level-0 sublist. -/
theorem levelZero_eraseIdx (l : List Position) (i : ℕ) (hi : i < l.length)
    (hne : ¬ l[i].entry_level = some 0) :
    levelZeroPositions (l.eraseIdx i) = levelZeroPositions l := by
  rw [List.eraseIdx_eq_take_drop_succ]
  conv_rhs => rw [← List.take_append_drop i l, List.drop_eq_getElem_cons hi]
  unfold levelZeroPositions
  rw [List.filter_append, List.filter_append, List.filter_cons]
  simp [hne]

theorem closePosition_open_some (cfg : BitcoinBacktestConfig) (row : BRow)
    (s : SimState) (p : ℕ × ℚ) (pos : Position)
    (hpos : s.open_positions[p.1]? = some pos) :
    (closePosition cfg row s p).open_positions = s.open_positions.eraseIdx p.1 := by
  unfold closePosition
  rw [hpos]

/-- Popping the collected positions (in reversed, i.e. strictly decreasing,
index order) removes only positions whose entry level is at most `-0.5`,
hence preserves the level-0 sublist of `open_positions`. -/
theorem closeFold_levelZero (cfg : BitcoinBacktestConfig) (row : BRow) :
    ∀ (ps : List (ℕ × ℚ)) (s : SimState) (b : ℕ),
      b ≤ s.open_positions.length →
      (∀ pr ∈ ps, pr.1 < b) →
      (∀ pr ∈ ps, ∀ pos, s.open_positions[pr.1]? = some pos →
        ∃ v, pos.entry_level = some v ∧ v ≤ -1/2) →
      List.Pairwise (fun a c => c.1 < a.1) ps →
      levelZeroPositions ((ps.foldl (closePosition cfg row) s).open_positions)
        = levelZeroPositions s.open_positions := by
  intro ps
  induction ps with
  | nil =>
    intro s b _ _ _ _
    rfl
  | cons p rest ih =>
    intro s b hb hlt hlev hpw
    simp only [List.foldl_cons]
    have hpb : p.1 < b := hlt p (List.mem_cons_self _ _)
    have hpi : p.1 < s.open_positions.length := lt_of_lt_of_le hpb hb
    have hpos : s.open_positions[p.1]? = some s.open_positions[p.1] :=
      List.getElem?_eq_getElem hpi
    obtain ⟨v, hv, hvle⟩ := hlev p (List.mem_cons_self _ _) _ hpos
    have hopen1 : (closePosition cfg row s p).open_positions
        = s.open_positions.eraseIdx p.1 := closePosition_open_some cfg row s p _ hpos
    have hne : ¬ s.open_positions[p.1].entry_level = some 0 := by
      rw [hv]
      intro hcontra
      rw [Option.some.injEq] at hcontra
      rw [hcontra] at hvle
      norm_num at hvle
    have hza : levelZeroPositions (s.open_positions.eraseIdx p.1)
        = levelZeroPositions s.open_positions := levelZero_eraseIdx _ _ hpi hne
    have hrec := ih (closePosition cfg row s p) p.1 ?_ ?_ ?_ ?_
    · rw [hrec, hopen1, hza]
    · rw [hopen1, List.length_eraseIdx, if_pos hpi]
      omega
    · exact (List.pairwise_cons.mp hpw).1
    · intro pr hpr pos2 hpos2
      have hlt2 : pr.1 < p.1 := (List.pairwise_cons.mp hpw).1 pr hpr
      rw [hopen1, getElem?_eraseIdx_lt _ p.1 pr.1 hlt2 (le_of_lt hpi)] at hpos2
      exact hlev pr (List.mem_cons_of_mem _ hpr) pos2 hpos2
    · exact (List.pairwise_cons.mp hpw).2

/-- The whole exit phase of one scaled `simulate_trades` step preserves the
level-0 sublist of the open positions. -/
theorem closePhase_levelZero (cfg : BitcoinBacktestConfig) (row : BRow)
    (hscaled : cfg.use_scaled_strategy = true) (s1 : SimState) :
    levelZeroPositions
      (((collectCloses cfg row s1.open_positions 0 s1.used_exit_levels).1.reverse.foldl
          (closePosition cfg row)
          { s1 with used_exit_levels :=
              (collectCloses cfg row s1.open_positions 0 s1.used_exit_levels).2 }).open_positions)
      = levelZeroPositions s1.open_positions := by
  obtain ⟨hspec1, -, hspec3⟩ :=
    collectCloses_spec cfg row hscaled s1.open_positions 0 s1.used_exit_levels
  apply closeFold_levelZero cfg row _ _ s1.open_positions.length
  · exact le_refl _
  · intro pr hpr
    obtain ⟨j, hj, hj2, -⟩ := hspec1 pr (List.mem_reverse.mp hpr)
    omega
  · intro pr hpr pos hpos
    obtain ⟨j, hj, hj2, v, hv, hvle⟩ := hspec1 pr (List.mem_reverse.mp hpr)
    have hj0 : pr.1 = j := by omega
    rw [hj0, List.getElem?_eq_getElem hj] at hpos
    rw [Option.some.injEq] at hpos
    exact ⟨v, by rw [← hpos]; exact hv, hvle⟩
  · rw [List.pairwise_reverse]
    exact hspec3

theorem simStep_levelZero (cfg : BitcoinBacktestConfig) (row : BRow)
    (hscaled : cfg.use_scaled_strategy = true) (s : SimState) :
    ∃ t, levelZeroPositions ((simStep cfg s row).open_positions)
      = levelZeroPositions s.open_positions ++ t := by
  have hentry : ∃ t1, levelZeroPositions
      ((scaledEntryLoop cfg row s scaledEntryLevels).open_positions)
      = levelZeroPositions s.open_positions ++ t1 := by
    rcases scaledEntryLoop_cases cfg row scaledEntryLevels s with
      heq | ⟨l, pos, et, hopen, -, -, -, -, -, -⟩
    · exact ⟨[], by rw [heq]; simp⟩
    · exact ⟨levelZeroPositions [pos],
        by rw [hopen]; exact List.filter_append _ _⟩
  obtain ⟨t1, ht1⟩ := hentry
  refine ⟨t1, ?_⟩
  simp only [simStep, if_pos hscaled]
  rw [closePhase_levelZero cfg row hscaled (scaledEntryLoop cfg row s scaledEntryLevels)]
  exact ht1

/-- C8: in scaled mode, (a) extending a run by one more observation never
removes a position entered at the 0.0 level from `open_positions` (the
level-0 sublist before the step is a prefix of the one after it), because
(b) the scaled exit only ever collects positions whose recorded entry level
is at most `-0.5`. -/
theorem C8_level_zero_never_exits (cfg : BitcoinBacktestConfig) (rows : List BRow)
    (row : BRow) (hscaled : cfg.use_scaled_strategy = true) :
    (∃ t, levelZeroPositions ((simulateStates cfg (rows ++ [row])).open_positions)
      = levelZeroPositions ((simulateStates cfg rows).open_positions) ++ t) ∧
    (∀ (positions : List Position) (i : ℕ) (used : List ℚ),
      ∀ pr ∈ (collectCloses cfg row positions i used).1,
        ∃ j, ∃ hj : j < positions.length, pr.1 = i + j ∧
          ∃ v, positions[j].entry_level = some v ∧ v ≤ -1/2) := by
  constructor
  · have hstep : simulateStates cfg (rows ++ [row])
        = simStep cfg (simulateStates cfg rows) row := by
      simp [simulateStates, List.foldl_append]
    rw [hstep]
    exact simStep_levelZero cfg row hscaled (simulateStates cfg rows)
  · intro positions i used
    exact (collectCloses_spec cfg row hscaled positions i used).1

/-- Witness for C8 at the default configuration, the empty run and a
trivial observation row. -/
theorem C8_level_zero_never_exits_witness :
    ∃ t, levelZeroPositions
        ((simulateStates {} ([] ++ [trivialRow])).open_positions)
      = levelZeroPositions ((simulateStates {} []).open_positions) ++ t :=
  (C8_level_zero_never_exits {} [] trivialRow rfl).1

end TradingTest
